import Mathlib

/-!
Verification of the GROMACS IMD (interactive molecular dynamics) session and
wire-protocol layer, `src/gromacs/imd/imd.cpp`.

The shallow embedding below translates the session state (`t_gmx_IMD_setup`),
the wire codec (`fill_header` / `swap_header` / `imd_recv_header`), the
connection manager (`imd_tryconnect`, `imd_disconnect`), the command
dispatcher (`imd_readcommand`), the group synchronizer (`imd_sync_nodes`) and
the coordinate unwrap (`imd_remove_molshifts`, `shift_positions`) into pure
Lean functions.  Machine `int32_t` values are modelled as `Int` (no arithmetic
in the translated code can overflow 32 bits except in the header codec, which
is modelled at byte level), C `float` payload values are modelled as exact
rationals, arrays are modelled as lists or as functions from `Nat`, and the
byte stream of the client socket is modelled as the finite list of messages
the client sends before closing the connection (a read past the end of the
list is a short read, which `imd_recv_header` turns into `IMD_IOERROR`).
-/

namespace GmxImd

/-- Message types of the IMD protocol, from the `IMDType_t` enum
(`IMD_DISCONNECT = 0` .. `IMD_IOERROR = 9`). -/
inductive IMDMessageType where
  | IMD_DISCONNECT
  | IMD_ENERGIES
  | IMD_FCOORDS
  | IMD_GO
  | IMD_HANDSHAKE
  | IMD_KILL
  | IMD_MDCOMM
  | IMD_PAUSE
  | IMD_TRATE
  | IMD_IOERROR
deriving DecidableEq, Repr

/-- Numeric value of each enum constant, in declaration order. -/
def typeCode : IMDMessageType → Nat
  | .IMD_DISCONNECT => 0
  | .IMD_ENERGIES   => 1
  | .IMD_FCOORDS    => 2
  | .IMD_GO         => 3
  | .IMD_HANDSHAKE  => 4
  | .IMD_KILL       => 5
  | .IMD_MDCOMM     => 6
  | .IMD_PAUSE      => 7
  | .IMD_TRATE      => 8
  | .IMD_IOERROR    => 9

/-! ### Wire codec

`fill_header` stores `imd_htonl` of both 32-bit fields, i.e. the header
travels in network byte order (big-endian); the receiver reads the 8 bytes
back (`imd_recv_header`) and applies `swap_header`, i.e. `imd_ntohl`, on both
fields.  We model this at the byte level: a 32-bit value (its two's-complement
bit pattern, a `Nat` below `2^32`) is encoded as its 4 big-endian bytes and
decoded back. -/

/-- Big-endian bytes of a 32-bit value; the effect of `imd_htonl` on the wire. -/
def toBytesBE (n : Nat) : List Nat :=
  [n / 2 ^ 24 % 256, n / 2 ^ 16 % 256, n / 2 ^ 8 % 256, n % 256]

/-- Reads a 32-bit value from 4 big-endian bytes; the effect of reading the
wire into an `int32_t` and applying `imd_ntohl` (`swap_header`). -/
def fromBytesBE : List Nat → Nat
  | [b0, b1, b2, b3] => b0 * 2 ^ 24 + b1 * 2 ^ 16 + b2 * 2 ^ 8 + b3
  | _ => 0

/-- Wire bytes produced by `fill_header` for a message type code and length. -/
def fill_header (t len : Nat) : List Nat :=
  toBytesBE t ++ toBytesBE len

/-- Byte-order-normalizing receive path: reads the 8 header bytes and returns
the host-order (type, length) pair, as `imd_recv_header` plus `swap_header` do. -/
def imd_recv_header_bytes (bytes : List Nat) : Nat × Nat :=
  (fromBytesBE (bytes.take 4), fromBytesBE (bytes.drop 4))

/-! ### Session state -/

/-- 3-vector of rationals, modelling an `rvec` exactly. -/
structure Rvec3 where
  x : ℚ
  y : ℚ
  z : ℚ
deriving DecidableEq, Repr

/-- 3-vector of integers, modelling an `ivec` (periodic-image shift counts). -/
structure Ivec3 where
  x : Int
  y : Int
  z : Int
deriving DecidableEq, Repr

/-- Session state: the fields of `t_gmx_IMD_setup` that the session logic
reads or writes.  `clientsocket` is `true` when the client socket is non-null;
`flushes` counts `fflush` calls on the force output file; `stopRequested`
models `gmx_set_stop_condition(gmx_stop_cond_next)` having been called. -/
structure IMDSetup where
  sessionPossible : Bool := false
  bTerminated     : Bool := false
  bTerminatable   : Bool := false
  bWConnect       : Bool := false
  bConnected      : Bool := false
  bNewForces      : Bool := false
  bForceActivated : Bool := false
  nstimd          : Int := 1
  nstimd_new      : Int := 1
  nstimd_def      : Int := 1
  length          : Int := 0
  clientsocket    : Bool := false
  vmd_nforces     : Int := 0
  vmd_f_ind       : List Int := []
  vmd_forces      : List ℚ := []
  nforces         : Int := 0
  f_ind           : List Int := []
  f               : List Rvec3 := []
  flushes         : Nat := 0
  stopRequested   : Bool := false
deriving DecidableEq, Repr

/-- Disconnects the client: flushes the force log, destroys the client
socket, resets the negotiated rate to the default and clears the connected
flag (`imd_disconnect`). -/
def imd_disconnect (st : IMDSetup) : IMDSetup :=
  { st with
    flushes      := st.flushes + 1
    nstimd_new   := st.nstimd_def
    clientsocket := false
    bConnected   := false }

/-- Logs an error and disconnects the client (`imd_fatal`); the log text is
not modelled. -/
def imd_fatal (st : IMDSetup) : IMDSetup :=
  imd_disconnect st

/-! ### Connection manager -/

/-- Embeds `imd_tryconnect`.  The transport outcomes the function branches on
are passed explicitly: `incoming` is whether `imdsock_tryread` on the
listening socket reported a pending connection, `acceptOk` whether
`imdsock_accept` succeeded, `handshakeOk` whether the handshake write
succeeded, and `firstMsg` the first header read from the new client
(`none` when the bounded wait timed out or the header read was short).
Returns the new state and the C return value. -/
def imd_tryconnect (st : IMDSetup) (incoming acceptOk handshakeOk : Bool)
    (firstMsg : Option (IMDMessageType × Int)) : IMDSetup × Bool :=
  if incoming then
    if !acceptOk then
      ({ st with clientsocket := false }, false)
    else
      let st1 := { st with clientsocket := true }
      if !handshakeOk then
        (imd_fatal st1, false)
      else
        let st2 :=
          match firstMsg with
          | some (t, l) =>
              let st2a := { st1 with length := l }
              if t = IMDMessageType.IMD_GO then st2a else imd_fatal st2a
          | none => imd_fatal st1
        ({ st2 with bConnected := true }, true)
  else
    (st, false)

/-! ### Command dispatcher -/

/-- A message as the dispatcher sees it after `imd_recv_header`: either a
complete 8-byte header (with, for `IMD_MDCOMM`, the payload the client sent
after it), or a short header read, which `imd_recv_header` reports as
`IMD_IOERROR` without assigning `length`. -/
inductive WireMsg where
  | header (t : IMDMessageType) (len : Int) (idx : List Int) (frc : List ℚ)
  | shortHeader
deriving DecidableEq, Repr

/-- Reallocation semantics of `srenew`: the old prefix is kept up to the new
size; entries beyond the old length are fresh memory, modelled as `pad`. -/
def srenewList {α : Type} (old : List α) (n : Nat) (pad : α) : List α :=
  old.take n ++ List.replicate (n - old.length) pad

/-- Writes the received bytes into the front of a buffer, leaving the rest of
the buffer unchanged, as `imd_read_multiple` does on a short read. -/
def writeFront {α : Type} (dst src : List α) : List α :=
  src.take dst.length ++ dst.drop (min src.length dst.length)

/-- Embeds `imd_recv_mdcomm`: reads `n` int32 indices, then `3 n` floats,
from the payload the client sent.  A short payload fails after writing what
did arrive into the buffers.  Returns (success, indices buffer, forces
buffer). -/
def imd_recv_mdcomm (n : Nat) (idx : List Int) (frc : List ℚ)
    (fInd : List Int) (fArr : List ℚ) : Bool × List Int × List ℚ :=
  let fInd1 := writeFront fInd (idx.take n)
  if idx.length < n then
    (false, fInd1, fArr)
  else
    let fArr1 := writeFront fArr (frc.take (3 * n))
    if frc.length < 3 * n then
      (false, fInd1, fArr1)
    else
      (true, fInd1, fArr1)

/-- Embeds `imd_read_vmd_Forces`: sets `vmd_nforces` from the last header's
length, resizes the receive arrays (`imd_prepare_vmd_Forces`), then reads the
payload; on failure `imd_fatal` disconnects. -/
def imd_read_vmd_Forces (st : IMDSetup) (idx : List Int) (frc : List ℚ) :
    IMDSetup :=
  let st1 := { st with vmd_nforces := st.length }
  let n := st1.vmd_nforces.toNat
  let st2 := { st1 with
    vmd_f_ind  := srenewList st1.vmd_f_ind n 0
    vmd_forces := srenewList st1.vmd_forces (3 * n) 0 }
  let r := imd_recv_mdcomm n idx frc st2.vmd_f_ind st2.vmd_forces
  let st3 := { st2 with vmd_f_ind := r.2.1, vmd_forces := r.2.2 }
  if r.1 then st3 else imd_fatal st3

/-- One iteration of the `imd_readcommand` switch: handles a single decoded
message, given the current pause flag, and returns the new pause flag and
state. -/
def handleCommand (paused : Bool) (st : IMDSetup) (m : WireMsg) :
    Bool × IMDSetup :=
  match m with
  | .shortHeader => (paused, imd_fatal st)
  | .header t len idx frc =>
    let st0 := { st with length := len }
    match t with
    | .IMD_KILL =>
        (paused,
         if st0.bTerminatable then
           { st0 with bTerminated := true, bWConnect := false,
                      stopRequested := true }
         else st0)
    | .IMD_DISCONNECT => (paused, imd_disconnect st0)
    | .IMD_MDCOMM =>
        let st1 := imd_read_vmd_Forces st0 idx frc
        (paused, { st1 with bNewForces := true })
    | .IMD_PAUSE => (!paused, st0)
    | .IMD_TRATE =>
        (paused,
         { st0 with
           nstimd_new := if 0 < st0.length then st0.length else st0.nstimd_def })
    | _ => (paused, imd_fatal st0)

/-- The `imd_readcommand` drain loop with explicit fuel.  The loop guard is
`clientsocket && (tryread > 0 || IMDpaused)`; in the stream model bytes are
immediately available exactly when messages remain.  When the loop body runs
with an exhausted stream (possible only while paused), `imd_recv_header` gets
a short read, returns `IMD_IOERROR`, and the default switch case disconnects.
Returns `none` when the fuel ran out before the loop finished. -/
def imd_readcommand_fuel : Nat → Bool → IMDSetup → List WireMsg →
    Option IMDSetup
  | 0, _, _, _ => none
  | fuel + 1, paused, st, msgs =>
    if st.clientsocket && (!msgs.isEmpty || paused) then
      match msgs with
      | [] => imd_readcommand_fuel fuel paused (imd_fatal st) []
      | m :: rest =>
          let r := handleCommand paused st m
          imd_readcommand_fuel fuel r.1 r.2 rest
    else
      some st

/-- Embeds `imd_readcommand`: drains the available messages starting
unpaused; the fuel bound proved sufficient below. -/
def imd_readcommand (st : IMDSetup) (msgs : List WireMsg) : Option IMDSetup :=
  imd_readcommand_fuel (msgs.length + 2) false st msgs

/-! ### Group synchronizer -/

/-- Conversion factor kcal/mol/Angstrom to kJ/mol/nm used by
`imd_copyto_MD_Forces`: `CAL2JOULE * NM2A`. -/
def CAL2JOULE : ℚ := 4.184

/-- Nanometer to Angstrom conversion constant. -/
def NM2A : ℚ := 10

/-- Embeds `imd_prepare_MD_Forces`: resizes `f_ind` and `f` to `nforces`. -/
def imd_prepare_MD_Forces (st : IMDSetup) : IMDSetup :=
  { st with
    f_ind := srenewList st.f_ind st.nforces.toNat 0
    f     := srenewList st.f st.nforces.toNat ⟨0, 0, 0⟩ }

/-- Embeds `imd_copyto_MD_Forces`: copies the received indices and converts
the received flat float forces into unit-converted rvecs. -/
def imd_copyto_MD_Forces (st : IMDSetup) : IMDSetup :=
  let conversion : ℚ := CAL2JOULE * NM2A
  let n := st.nforces.toNat
  { st with
    f_ind := (List.range n).map fun i => st.vmd_f_ind.getD i 0
    f := (List.range n).map fun i =>
      ⟨st.vmd_forces.getD (3 * i) 0 * conversion,
       st.vmd_forces.getD (3 * i + 1) 0 * conversion,
       st.vmd_forces.getD (3 * i + 2) 0 * conversion⟩ }

/-- The signed count the coordinator computes in `imd_sync_nodes`: the size
of the pending batch if new forces arrived this step, otherwise
`vmd_nforces * -1`. -/
def imd_sync_new_nforces (st : IMDSetup) : Int :=
  if st.bNewForces then st.vmd_nforces else st.vmd_nforces * (-1)

/-- Embeds `imd_sync_nodes` for the coordinator plus a list of workers.  Each
`block_bc` is modelled by overwriting the corresponding field of every worker
with the coordinator's value; every process then runs the same code on the
broadcast values.  `bForceActivated` was itself broadcast at session start
(`init_IMD`), so the coordinator's flag decides the force branch for all. -/
def imd_sync_nodes (master : IMDSetup) (workers : List IMDSetup) :
    IMDSetup × List IMDSetup :=
  let ws1 := workers.map fun w => { w with bConnected := master.bConnected }
  if !master.bConnected then
    (master, ws1)
  else
    let ws2 := ws1.map fun w => { w with nstimd_new := master.nstimd_new }
    let m1 := { master with nstimd := master.nstimd_new }
    let ws3 := ws2.map fun w => { w with nstimd := w.nstimd_new }
    if !master.bForceActivated then
      (m1, ws3)
    else
      let new_nforces := imd_sync_new_nforces master
      if 0 ≤ new_nforces then
        let m2 := { m1 with vmd_nforces := new_nforces, nforces := new_nforces }
        let m3 := imd_copyto_MD_Forces (imd_prepare_MD_Forces m2)
        let ws4 := ws3.map fun w =>
          { w with
            vmd_nforces := new_nforces
            nforces     := new_nforces
            f_ind       := m3.f_ind
            f           := m3.f
            bNewForces  := false }
        ({ m3 with bNewForces := false }, ws4)
      else
        (m1, ws3)

/-! ### Coordinate assembler: removing molecule shifts -/

/-- Lower-triangle entries of the simulation box matrix that
`shift_positions` reads (`box[XX][XX]`, `box[YY][XX]`, `box[YY][YY]`,
`box[ZZ][XX]`, `box[ZZ][YY]`, `box[ZZ][ZZ]`). -/
structure BoxMat where
  xx : ℚ
  yx : ℚ
  yy : ℚ
  zx : ℚ
  zy : ℚ
  zz : ℚ
deriving DecidableEq, Repr

/-- The `TRICLINIC(box)` test: any off-diagonal lower-triangle entry nonzero. -/
def TRICLINIC (b : BoxMat) : Bool :=
  decide (b.yx ≠ 0) || decide (b.zx ≠ 0) || decide (b.zy ≠ 0)

/-- Effect of one iteration of `shift_positions` on one position: the same
shift triple `is` is subtracted, through the box matrix, from the position. -/
def shift_position (box : BoxMat) (is : Ivec3) (v : Rvec3) : Rvec3 :=
  let tx : ℚ := is.x
  let ty : ℚ := is.y
  let tz : ℚ := is.z
  if TRICLINIC box then
    ⟨v.x - tx * box.xx - ty * box.yx - tz * box.zx,
     v.y - ty * box.yy - tz * box.zy,
     v.z - tz * box.zz⟩
  else
    ⟨v.x - tx * box.xx, v.y - ty * box.yy, v.z - tz * box.zz⟩

/-- Componentwise subtraction of 3-vectors (relative geometry). -/
def rsub (u v : Rvec3) : Rvec3 :=
  ⟨u.x - v.x, u.y - v.y, u.z - v.z⟩

/-- The uniform translation vector that `shift_position` subtracts; it
depends only on the box and the shift triple, not on the position. -/
def shiftTranslation (box : BoxMat) (is : Ivec3) : Rvec3 :=
  if TRICLINIC box then
    ⟨(is.x : ℚ) * box.xx + (is.y : ℚ) * box.yx + (is.z : ℚ) * box.zx,
     (is.y : ℚ) * box.yy + (is.z : ℚ) * box.zy,
     (is.z : ℚ) * box.zz⟩
  else
    ⟨(is.x : ℚ) * box.xx, (is.y : ℚ) * box.yy, (is.z : ℚ) * box.zz⟩

/-- The `shift_positions` loop over the atom range `[a, b)` of the collective
position array, modelled as a function update: every atom of the range gets
the same shift applied. -/
def shift_positions (box : BoxMat) (is : Ivec3) (a b : Nat)
    (x : Nat → Rvec3) : Nat → Rvec3 :=
  fun j => if a ≤ j ∧ j < b then shift_position box is (x j) else x j

/-- Componentwise maximum of shift triples. -/
def ivecMax (u v : Ivec3) : Ivec3 :=
  ⟨max u.x v.x, max u.y v.y, max u.z v.z⟩

/-- Componentwise minimum of shift triples. -/
def ivecMin (u v : Ivec3) : Ivec3 :=
  ⟨min u.x v.x, min u.y v.y, min u.z v.z⟩

/-- Componentwise order on shift triples. -/
def ivecLe (u v : Ivec3) : Prop :=
  u.x ≤ v.x ∧ u.y ≤ v.y ∧ u.z ≤ v.z

/-- The `largest` accumulator of `imd_remove_molshifts` for the molecule
occupying atoms `[a, b)`: starts from atom `a` and folds the comparisons over
atoms `a+1 .. b-1`. -/
def molLargest (shifts : Nat → Ivec3) (a b : Nat) : Ivec3 :=
  (List.range' (a + 1) (b - (a + 1))).foldl
    (fun acc ii => ivecMax acc (shifts ii)) (shifts a)

/-- The `smallest` accumulator of `imd_remove_molshifts` for atoms `[a, b)`. -/
def molSmallest (shifts : Nat → Ivec3) (a b : Nat) : Ivec3 :=
  (List.range' (a + 1) (b - (a + 1))).foldl
    (fun acc ii => ivecMin acc (shifts ii)) (shifts a)

/-- The per-axis whole-molecule shift chosen by `imd_remove_molshifts`, in
source order: `shift` starts cleared, is set to `smallest` on an axis where
`smallest > 0`, then set to `largest` on an axis where `largest < 0`. -/
def molShiftVec (smallest largest : Ivec3) : Ivec3 :=
  let s1 : Ivec3 :=
    ⟨if 0 < smallest.x then smallest.x else 0,
     if 0 < smallest.y then smallest.y else 0,
     if 0 < smallest.z then smallest.z else 0⟩
  ⟨if largest.x < 0 then largest.x else s1.x,
   if largest.y < 0 then largest.y else s1.y,
   if largest.z < 0 then largest.z else s1.z⟩

/-- One iteration of the molecule loop of `imd_remove_molshifts`: compute the
shift extremes over the molecule's atoms, choose the whole-molecule shift,
and apply it to the molecule's positions when it is nonzero. -/
def imd_remove_molshift_one (box : BoxMat) (shifts : Nat → Ivec3)
    (a b : Nat) (x : Nat → Rvec3) : Nat → Rvec3 :=
  let largest := molLargest shifts a b
  let smallest := molSmallest shifts a b
  let shift := molShiftVec smallest largest
  if shift.x ≠ 0 ∨ shift.y ≠ 0 ∨ shift.z ≠ 0 then
    shift_positions box shift a b x
  else
    x

/-- The molecule ranges `[index[i], index[i+1])` encoded by a `t_block`
index array. -/
def molRanges : List Nat → List (Nat × Nat)
  | a :: b :: rest => (a, b) :: molRanges (b :: rest)
  | _ => []

/-- Embeds `imd_remove_molshifts`: processes every molecule of the IMD group
in order over the collective position array. -/
def imd_remove_molshifts (box : BoxMat) (molsIndex : List Nat)
    (shifts : Nat → Ivec3) (x : Nat → Rvec3) : Nat → Rvec3 :=
  (molRanges molsIndex).foldl
    (fun xc r => imd_remove_molshift_one box shifts r.1 r.2 xc) x

/-- The molecule loop over an explicit list of ranges; `imd_remove_molshifts`
is this fold over `molRanges molsIndex`. -/
def foldMols (box : BoxMat) (shifts : Nat → Ivec3) (rs : List (Nat × Nat))
    (x : Nat → Rvec3) : Nat → Rvec3 :=
  rs.foldl (fun xc r => imd_remove_molshift_one box shifts r.1 r.2 xc) x

/-- Concrete diagonal box used to evaluate the unwrap step. -/
def exBox : BoxMat := ⟨2, 0, 3, 0, 0, 4⟩

/-- Concrete per-atom shifts used to evaluate the unwrap step. -/
def exShifts : Nat → Ivec3 := fun j => if j = 0 then ⟨1, 0, -1⟩ else ⟨2, 0, -2⟩

/-- Concrete assembled positions used to evaluate the unwrap step. -/
def exX : Nat → Rvec3 := fun j => ⟨(j : ℚ), 0, 0⟩

/-! ### Concrete session states used to evaluate the embedded operations -/

/-- Freshly prepared session with a default interval of 7 steps. -/
def stIdle7 : IMDSetup := { nstimd_def := 7 }

/-- Session with an established, connected client. -/
def stConn : IMDSetup := { clientsocket := true, bConnected := true }

/-- Connected, force-injecting session whose current batch is empty while a
previous step left `nforces = 3`. -/
def stActiveEmptyBatch : IMDSetup :=
  { bConnected := true, bForceActivated := true, bNewForces := false,
    vmd_nforces := 0, nforces := 3, f_ind := [1, 2, 3] }

/-- Connected, force-injecting session holding a stale two-atom batch. -/
def stActiveBatch2 : IMDSetup :=
  { bConnected := true, bForceActivated := true, bNewForces := false,
    vmd_nforces := 2, nforces := 2 }

/-- Coordinator state that is not connected but carries force state. -/
def stSyncM : IMDSetup := { nforces := 3, bNewForces := true }

/-- A worker state with a nonzero communication interval. -/
def stW1 : IMDSetup := { nstimd := 5 }

/-- A worker state holding a force index. -/
def stW2 : IMDSetup := { f_ind := [2] }

/-! ## Theorems -/

theorem typeCode_lt (t : IMDMessageType) : typeCode t < 2 ^ 32 := by
  cases t <;> decide

theorem fromBytesBE_toBytesBE (n : Nat) (h : n < 2 ^ 32) :
    fromBytesBE (toBytesBE n) = n := by
  simp only [toBytesBE, fromBytesBE]
  omega

/-- C3: For every message kind in the protocol's closed set and every int32
length value (modelled as its 32-bit two's-complement pattern), decoding the
8-byte header produced by encoding (`fill_header` followed by the
byte-order-normalizing receive path `swap_header` / `imd_recv_header`)
reproduces exactly the original (kind, length) pair. -/
theorem header_roundtrip (t : IMDMessageType) (len : Nat)
    (hlen : len < 2 ^ 32) :
    imd_recv_header_bytes (fill_header (typeCode t) len)
      = (typeCode t, len) := by
  have h4 : (toBytesBE (typeCode t)).length = 4 := rfl
  unfold imd_recv_header_bytes fill_header
  rw [← h4, List.take_left, List.drop_left,
    fromBytesBE_toBytesBE _ (typeCode_lt t), fromBytesBE_toBytesBE _ hlen]

theorem header_roundtrip_witness :
    (4294967295 < 2 ^ 32) ∧
    imd_recv_header_bytes (fill_header (typeCode .IMD_TRATE) 4294967295)
      = (typeCode .IMD_TRATE, 4294967295) :=
  ⟨by decide, header_roundtrip .IMD_TRATE 4294967295 (by decide)⟩

/-- C6: Processing a set-rate (`IMD_TRATE`) message in `imd_readcommand`
with a declared value `V > 0` sets `nstimd_new` to exactly `V`, and with a
declared value of exactly 0 restores `nstimd_new` to `nstimd_def`, from any
prior state, hence along any sequence of set-rate messages. -/
theorem trate_sets_interval (paused : Bool) (st : IMDSetup) (v : Int) :
    (0 < v →
      (handleCommand paused st (.header .IMD_TRATE v [] [])).2.nstimd_new = v) ∧
    (v = 0 →
      (handleCommand paused st (.header .IMD_TRATE v [] [])).2.nstimd_new
        = st.nstimd_def) := by
  have key : (handleCommand paused st (.header .IMD_TRATE v [] [])).2.nstimd_new
      = if 0 < v then v else st.nstimd_def := rfl
  constructor
  · intro h
    rw [key, if_pos h]
  · intro h
    rw [key, if_neg (by omega)]

theorem trate_sets_interval_witness :
    ((0 : Int) < 5 ∧
     (handleCommand false stIdle7
        (.header .IMD_TRATE 5 [] [])).2.nstimd_new = 5) ∧
    ((handleCommand false stIdle7
        (.header .IMD_TRATE 0 [] [])).2.nstimd_new = stIdle7.nstimd_def) :=
  ⟨⟨by decide, (trate_sets_interval false stIdle7 5).1 (by decide)⟩,
   (trate_sets_interval false stIdle7 0).2 rfl⟩

/-- C10: A set-rate message with a negative declared value is treated
exactly like a value of 0: `nstimd_new` is restored to `nstimd_def`; and
after any processed set-rate message `nstimd_new` is strictly positive
provided `nstimd_def` is. -/
theorem trate_negative_resets (paused : Bool) (st : IMDSetup) (v : Int) :
    (v < 0 →
      (handleCommand paused st (.header .IMD_TRATE v [] [])).2.nstimd_new
        = st.nstimd_def) ∧
    (0 < st.nstimd_def →
      0 < (handleCommand paused st (.header .IMD_TRATE v [] [])).2.nstimd_new)
    := by
  have key : (handleCommand paused st (.header .IMD_TRATE v [] [])).2.nstimd_new
      = if 0 < v then v else st.nstimd_def := rfl
  constructor
  · intro h
    rw [key, if_neg (by omega)]
  · intro h
    rw [key]
    split <;> omega

theorem trate_negative_resets_witness :
    ((-3 : Int) < 0 ∧
     (handleCommand false stIdle7
        (.header .IMD_TRATE (-3) [] [])).2.nstimd_new = stIdle7.nstimd_def) ∧
    (0 < stIdle7.nstimd_def ∧
     0 < (handleCommand false stIdle7
        (.header .IMD_TRATE (-3) [] [])).2.nstimd_new) :=
  ⟨⟨by decide, (trate_negative_resets false stIdle7 (-3)).1 (by decide)⟩,
   ⟨by decide, (trate_negative_resets false stIdle7 (-3)).2 (by decide)⟩⟩

/-- C7: Every disconnection through `imd_disconnect` (explicit client
disconnect, I/O error and kill all reach it) flushes the pending log output,
resets the negotiated update interval to the configured default, and leaves
the session not connected with a null client socket. -/
theorem disconnect_resets (st : IMDSetup) :
    (imd_disconnect st).flushes = st.flushes + 1 ∧
    (imd_disconnect st).nstimd_new = st.nstimd_def ∧
    (imd_disconnect st).bConnected = false ∧
    (imd_disconnect st).clientsocket = false := by
  simp [imd_disconnect]

/-- C2: Evaluates `imd_tryconnect` at a failing input.  A client connects,
the handshake succeeds, but the first message is `IMD_PAUSE` instead of
`IMD_GO`: `imd_fatal` runs (the socket is destroyed), yet the missing early
return lets control fall through to `bConnected = TRUE`, so the function
returns `true` with `bConnected` set while `clientsocket` is null — the
session does not remain in the Idle state the code's own log message
("IMD connection failed ... disconnected") announces. -/
theorem tryconnect_no_go_sets_connected :
    ((imd_tryconnect stIdle7 true true true
        (some (.IMD_PAUSE, 0))).1.bConnected = true) ∧
    ((imd_tryconnect stIdle7 true true true
        (some (.IMD_PAUSE, 0))).1.clientsocket = false) ∧
    ((imd_tryconnect stIdle7 true true true
        (some (.IMD_PAUSE, 0))).2 = true) := by
  decide

/-- C1 counterexample: a force-data message declaring 1 atom whose payload
delivers the index but no force vector.  The client is disconnected, but the
ForceBatch state is partially updated: `vmd_nforces` was 0 before the message
and is 1 after it, and the received index 5 was written into `vmd_f_ind`. -/
theorem mdcomm_short_partial_update_cex :
    ((handleCommand false stConn
        (.header .IMD_MDCOMM 1 [5] [])).2.vmd_nforces = 1) ∧
    (stConn.vmd_nforces = 0) ∧
    ((handleCommand false stConn
        (.header .IMD_MDCOMM 1 [5] [])).2.vmd_f_ind = [5]) ∧
    ((handleCommand false stConn
        (.header .IMD_MDCOMM 1 [5] [])).2.bConnected = false) := by
  decide

/-- C1 amended: a force-data message declaring N atoms whose payload
delivers fewer than N index entries or fewer than N 3-float force vectors
always results in a disconnect (connection closed, socket destroyed, rate
reset), but the ForceBatch is not left untouched: `vmd_nforces` is set to the
declared count before the receive is attempted, received entries overwrite
the front of the arrays, and `bNewForces` is set regardless. -/
theorem mdcomm_short_disconnects (paused : Bool) (st : IMDSetup) (n : Int)
    (idx : List Int) (frc : List ℚ)
    (hshort : idx.length < n.toNat ∨ frc.length < 3 * n.toNat) :
    ((handleCommand paused st (.header .IMD_MDCOMM n idx frc)).2.bConnected
       = false) ∧
    ((handleCommand paused st (.header .IMD_MDCOMM n idx frc)).2.clientsocket
       = false) ∧
    ((handleCommand paused st (.header .IMD_MDCOMM n idx frc)).2.nstimd_new
       = st.nstimd_def) ∧
    ((handleCommand paused st (.header .IMD_MDCOMM n idx frc)).2.vmd_nforces
       = n) ∧
    ((handleCommand paused st (.header .IMD_MDCOMM n idx frc)).2.bNewForces
       = true) := by
  unfold handleCommand imd_read_vmd_Forces imd_recv_mdcomm
  rcases hshort with h | h
  · simp [h, imd_fatal, imd_disconnect]
  · by_cases hidx : idx.length < n.toNat
    · simp [hidx, imd_fatal, imd_disconnect]
    · simp [hidx, h, imd_fatal, imd_disconnect]

theorem mdcomm_short_disconnects_witness :
    (([(5 : Int)].length < (2 : Int).toNat ∨
       ([] : List ℚ).length < 3 * (2 : Int).toNat) ∧
     ((handleCommand false stConn
         (.header .IMD_MDCOMM 2 [5] [])).2.bConnected = false) ∧
     ((handleCommand false stConn
         (.header .IMD_MDCOMM 2 [5] [])).2.clientsocket = false) ∧
     ((handleCommand false stConn
         (.header .IMD_MDCOMM 2 [5] [])).2.nstimd_new = stConn.nstimd_def) ∧
     ((handleCommand false stConn
         (.header .IMD_MDCOMM 2 [5] [])).2.vmd_nforces = 2) ∧
     ((handleCommand false stConn
         (.header .IMD_MDCOMM 2 [5] [])).2.bNewForces = true)) :=
  ⟨Or.inl (by decide),
   mdcomm_short_disconnects false stConn 2 [5] [] (Or.inl (by decide))⟩

/-- C4: When the Group Synchronizer runs with the coordinator's connected
flag false, every worker observes `bConnected = false` and nothing else
changes on any process: the coordinator state is returned unchanged and each
worker state changes only in its `bConnected` field (in particular `nstimd`,
`nforces`, `f_ind`, `f` and `bNewForces` are untouched everywhere). -/
theorem sync_disconnected_noop (m : IMDSetup) (ws : List IMDSetup)
    (h : m.bConnected = false) :
    imd_sync_nodes m ws = (m, ws.map fun w => { w with bConnected := false })
    := by
  simp [imd_sync_nodes, h]

theorem sync_disconnected_noop_witness :
    (stSyncM.bConnected = false) ∧
    imd_sync_nodes stSyncM [stW1, stW2]
      = (stSyncM, [stW1, stW2].map fun w => { w with bConnected := false }) :=
  ⟨rfl, sync_disconnected_noop stSyncM [stW1, stW2] rfl⟩

/-- C5 counterexample: a synchronization step with connection and force
injection active, no new forces this step, and an empty current batch
(`vmd_nforces = 0`).  The signed count is 0, not negative, and the
array-resize path is entered: the coordinator's `nforces` is resized from 3
to 0 although no fresh force data arrived. -/
theorem sync_count_not_negative_cex :
    (¬(imd_sync_new_nforces stActiveEmptyBatch < 0)) ∧
    ((imd_sync_nodes stActiveEmptyBatch []).1.nforces = 0) ∧
    (stActiveEmptyBatch.nforces = 3) := by
  decide

/-- C5 amended: provided the current batch size `vmd_nforces` is
nonnegative, the signed count broadcast by the coordinator is negative if
and only if no new forces were received this step and the current batch size
is strictly positive (with a zero-size batch the count is 0 and the resize
path is entered even without fresh data); and whenever the count is
negative the resize-and-rebroadcast path is skipped: `nforces`, `f_ind`, `f`
and `bNewForces` of the coordinator are unchanged by the step. -/
theorem sync_count_sign (st : IMDSetup) (ws : List IMDSetup)
    (h : 0 ≤ st.vmd_nforces) :
    (imd_sync_new_nforces st < 0 ↔
       (st.bNewForces = false ∧ 0 < st.vmd_nforces)) ∧
    (imd_sync_new_nforces st < 0 →
       ((imd_sync_nodes st ws).1.nforces = st.nforces ∧
        (imd_sync_nodes st ws).1.f_ind = st.f_ind ∧
        (imd_sync_nodes st ws).1.f = st.f ∧
        (imd_sync_nodes st ws).1.bNewForces = st.bNewForces)) := by
  constructor
  · unfold imd_sync_new_nforces
    cases hb : st.bNewForces
    · simp [hb]
    · simp [hb]
      omega
  · intro hneg
    unfold imd_sync_nodes
    have hge : ¬(0 ≤ imd_sync_new_nforces st) := by omega
    cases hc : st.bConnected <;> cases ha : st.bForceActivated <;>
      simp [hc, ha, hge]

theorem imd_readcommand_fuel_succ (fuel : Nat) (paused : Bool)
    (st : IMDSetup) (msgs : List WireMsg) :
    imd_readcommand_fuel (fuel + 1) paused st msgs =
      if st.clientsocket && (!msgs.isEmpty || paused) then
        match msgs with
        | [] => imd_readcommand_fuel fuel paused (imd_fatal st) []
        | m :: rest =>
            imd_readcommand_fuel fuel (handleCommand paused st m).1
              (handleCommand paused st m).2 rest
      else some st := rfl

theorem drain_total (msgs : List WireMsg) : ∀ (paused : Bool) (st : IMDSetup),
    (imd_readcommand_fuel (msgs.length + 2) paused st msgs).isSome = true := by
  induction msgs with
  | nil =>
    intro paused st
    rw [show ([] : List WireMsg).length + 2 = 1 + 1 from rfl,
      imd_readcommand_fuel_succ]
    split
    · rw [show (1 : Nat) = 0 + 1 from rfl, imd_readcommand_fuel_succ]
      simp [imd_fatal, imd_disconnect]
    · simp
  | cons m rest ih =>
    intro paused st
    rw [show (m :: rest).length + 2 = (rest.length + 2) + 1 from rfl,
      imd_readcommand_fuel_succ]
    split
    · exact ih _ _
    · simp

/-- C9: The drain loop of `imd_readcommand` terminates for every incoming
message sequence: fuel equal to the number of pending messages plus two
always suffices (the extra iterations cover the paused-with-empty-socket
case, where the blocked header read ends in `IMD_IOERROR` once the client
closes, which disconnects and exits the loop); moreover when not paused the
loop stops immediately, with the state untouched, as soon as no more bytes
are available, and when paused with an exhausted socket it stops right
after that forced disconnect. -/
theorem readcommand_drain_terminates (msgs : List WireMsg) (paused : Bool)
    (st : IMDSetup) :
    ((imd_readcommand_fuel (msgs.length + 2) paused st msgs).isSome = true) ∧
    (imd_readcommand_fuel 1 false st [] = some st) ∧
    (st.clientsocket = true →
      imd_readcommand_fuel 2 true st [] = some (imd_fatal st)) := by
  refine ⟨drain_total msgs paused st, ?_, ?_⟩
  · rw [show (1 : Nat) = 0 + 1 from rfl, imd_readcommand_fuel_succ]
    simp
  · intro hc
    rw [show (2 : Nat) = 1 + 1 from rfl, imd_readcommand_fuel_succ]
    simp only [List.isEmpty_nil, Bool.not_true, Bool.false_or, hc,
      Bool.true_and, if_true]
    rw [show (1 : Nat) = 0 + 1 from rfl, imd_readcommand_fuel_succ]
    simp [imd_fatal, imd_disconnect]

theorem readcommand_drain_terminates_witness :
    (stConn.clientsocket = true) ∧
    (imd_readcommand_fuel 2 true stConn [] = some (imd_fatal stConn)) ∧
    ((imd_readcommand_fuel
        ([WireMsg.header .IMD_PAUSE 0 [] []].length + 2) false stConn
        [WireMsg.header .IMD_PAUSE 0 [] []]).isSome = true) :=
  ⟨rfl,
   (readcommand_drain_terminates [WireMsg.header .IMD_PAUSE 0 [] []] false
      stConn).2.2 rfl,
   (readcommand_drain_terminates [WireMsg.header .IMD_PAUSE 0 [] []] false
      stConn).1⟩

theorem sync_count_sign_witness :
    ((0 : Int) ≤ stActiveBatch2.vmd_nforces) ∧
    ((imd_sync_new_nforces stActiveBatch2 < 0 ↔
       (stActiveBatch2.bNewForces = false ∧
        0 < stActiveBatch2.vmd_nforces)) ∧
     (imd_sync_new_nforces stActiveBatch2 < 0 →
       ((imd_sync_nodes stActiveBatch2 []).1.nforces
          = stActiveBatch2.nforces ∧
        (imd_sync_nodes stActiveBatch2 []).1.f_ind
          = stActiveBatch2.f_ind ∧
        (imd_sync_nodes stActiveBatch2 []).1.f = stActiveBatch2.f ∧
        (imd_sync_nodes stActiveBatch2 []).1.bNewForces
          = stActiveBatch2.bNewForces))) :=
  ⟨by decide, sync_count_sign stActiveBatch2 [] (by decide)⟩

/-! ### Helper lemmas for the unwrap step -/

theorem molRanges_cons_cons (a b : Nat) (rest : List Nat) :
    molRanges (a :: b :: rest) = (a, b) :: molRanges (b :: rest) := rfl

theorem ivecLe_trans {u v w : Ivec3} (h1 : ivecLe u v) (h2 : ivecLe v w) :
    ivecLe u w :=
  ⟨le_trans h1.1 h2.1, le_trans h1.2.1 h2.2.1, le_trans h1.2.2 h2.2.2⟩

theorem foldl_ivecMax_init (f : Nat → Ivec3) (l : List Nat) :
    ∀ init : Ivec3,
      ivecLe init (l.foldl (fun acc i => ivecMax acc (f i)) init) := by
  induction l with
  | nil =>
    intro init
    exact ⟨le_refl _, le_refl _, le_refl _⟩
  | cons i t ih =>
    intro init
    exact ivecLe_trans
      (⟨le_max_left _ _, le_max_left _ _, le_max_left _ _⟩ :
        ivecLe init (ivecMax init (f i))) (ih _)

theorem foldl_ivecMax_mem (f : Nat → Ivec3) (l : List Nat) :
    ∀ init : Ivec3, ∀ i ∈ l,
      ivecLe (f i) (l.foldl (fun acc k => ivecMax acc (f k)) init) := by
  induction l with
  | nil =>
    intro init i hi
    cases hi
  | cons j t ih =>
    intro init i hi
    rcases List.mem_cons.mp hi with rfl | hi2
    · exact ivecLe_trans
        (⟨le_max_right _ _, le_max_right _ _, le_max_right _ _⟩ :
          ivecLe (f i) (ivecMax init (f i))) (foldl_ivecMax_init f t _)
    · exact ih _ i hi2

theorem foldl_ivecMin_init (f : Nat → Ivec3) (l : List Nat) :
    ∀ init : Ivec3,
      ivecLe (l.foldl (fun acc i => ivecMin acc (f i)) init) init := by
  induction l with
  | nil =>
    intro init
    exact ⟨le_refl _, le_refl _, le_refl _⟩
  | cons i t ih =>
    intro init
    exact ivecLe_trans (ih _)
      (⟨min_le_left _ _, min_le_left _ _, min_le_left _ _⟩ :
        ivecLe (ivecMin init (f i)) init)

theorem foldl_ivecMin_mem (f : Nat → Ivec3) (l : List Nat) :
    ∀ init : Ivec3, ∀ i ∈ l,
      ivecLe (l.foldl (fun acc k => ivecMin acc (f k)) init) (f i) := by
  induction l with
  | nil =>
    intro init i hi
    cases hi
  | cons j t ih =>
    intro init i hi
    rcases List.mem_cons.mp hi with rfl | hi2
    · exact ivecLe_trans (foldl_ivecMin_init f t _)
        (⟨min_le_right _ _, min_le_right _ _, min_le_right _ _⟩ :
          ivecLe (ivecMin init (f i)) (f i))
    · exact ih _ i hi2

theorem molLargest_bound (shifts : Nat → Ivec3) (a b j : Nat)
    (h1 : a ≤ j) (h2 : j < b) :
    ivecLe (shifts j) (molLargest shifts a b) := by
  unfold molLargest
  rcases Nat.eq_or_lt_of_le h1 with rfl | hlt
  · exact foldl_ivecMax_init _ _ _
  · refine foldl_ivecMax_mem _ _ _ j ?_
    rw [List.mem_range'_1]
    omega

theorem molSmallest_bound (shifts : Nat → Ivec3) (a b j : Nat)
    (h1 : a ≤ j) (h2 : j < b) :
    ivecLe (molSmallest shifts a b) (shifts j) := by
  unfold molSmallest
  rcases Nat.eq_or_lt_of_le h1 with rfl | hlt
  · exact foldl_ivecMin_init _ _ _
  · refine foldl_ivecMin_mem _ _ _ j ?_
    rw [List.mem_range'_1]
    omega

theorem rvec3_eq (u v : Rvec3) (h1 : u.x = v.x) (h2 : u.y = v.y)
    (h3 : u.z = v.z) : u = v := by
  cases u
  cases v
  simp_all

theorem shift_position_eq (box : BoxMat) (is : Ivec3) (v : Rvec3) :
    shift_position box is v = rsub v (shiftTranslation box is) := by
  refine rvec3_eq _ _ ?_ ?_ ?_ <;>
  · cases htri : TRICLINIC box
    · simp only [shift_position, shiftTranslation, rsub, htri,
        Bool.false_eq_true, if_false]
      try ring
    · simp only [shift_position, shiftTranslation, rsub, htri, if_true]
      try ring

theorem rsub_zero_vec (v : Rvec3) : rsub v ⟨0, 0, 0⟩ = v := by
  cases v
  simp [rsub]

theorem rsub_rsub (u v d : Rvec3) : rsub (rsub u d) (rsub v d) = rsub u v := by
  simp only [rsub, Rvec3.mk.injEq]
  refine ⟨by ring, by ring, by ring⟩

theorem molshift_one_outside (box : BoxMat) (shifts : Nat → Ivec3)
    (a b : Nat) (x : Nat → Rvec3) (j : Nat) (h : ¬(a ≤ j ∧ j < b)) :
    imd_remove_molshift_one box shifts a b x j = x j := by
  unfold imd_remove_molshift_one shift_positions
  split
  · simp [h]
  · rfl

theorem molshift_one_inside (box : BoxMat) (shifts : Nat → Ivec3)
    (a b : Nat) (x : Nat → Rvec3) (j : Nat) (h1 : a ≤ j) (h2 : j < b) :
    imd_remove_molshift_one box shifts a b x j
      = rsub (x j)
          (shiftTranslation box
            (molShiftVec (molSmallest shifts a b) (molLargest shifts a b)))
    := by
  unfold imd_remove_molshift_one shift_positions
  split
  · simp [h1, h2, shift_position_eq]
  · next hzero =>
    push_neg at hzero
    obtain ⟨hx, hy, hz⟩ := hzero
    have ht : shiftTranslation box
        (molShiftVec (molSmallest shifts a b) (molLargest shifts a b))
        = ⟨0, 0, 0⟩ := by
      unfold shiftTranslation
      split <;> simp [hx, hy, hz]
    rw [ht, rsub_zero_vec]

theorem foldMols_outside (box : BoxMat) (shifts : Nat → Ivec3)
    (rs : List (Nat × Nat)) (j : Nat) :
    ∀ x : Nat → Rvec3, (∀ r ∈ rs, ¬(r.1 ≤ j ∧ j < r.2)) →
      foldMols box shifts rs x j = x j := by
  induction rs with
  | nil =>
    intro x h
    rfl
  | cons r t ih =>
    intro x h
    have step : foldMols box shifts (r :: t) x
        = foldMols box shifts t (imd_remove_molshift_one box shifts r.1 r.2 x)
        := rfl
    rw [step, ih _ fun s hs => h s (List.mem_cons_of_mem r hs),
      molshift_one_outside _ _ _ _ _ _ (h r (List.mem_cons_self r t))]

theorem foldMols_split (box : BoxMat) (shifts : Nat → Ivec3)
    (s t : List (Nat × Nat)) (a b j : Nat) (hj1 : a ≤ j) (hj2 : j < b)
    (hs : ∀ r ∈ s, r.2 ≤ a) (ht : ∀ r ∈ t, b ≤ r.1) (x : Nat → Rvec3) :
    foldMols box shifts (s ++ (a, b) :: t) x j
      = rsub (x j)
          (shiftTranslation box
            (molShiftVec (molSmallest shifts a b) (molLargest shifts a b)))
    := by
  have e1 : foldMols box shifts (s ++ (a, b) :: t) x
      = foldMols box shifts t
          (imd_remove_molshift_one box shifts a b (foldMols box shifts s x))
      := by
    unfold foldMols
    rw [List.foldl_append]
    rfl
  rw [e1,
    foldMols_outside box shifts t j _
      (fun r hr => by have := ht r hr; omega),
    molshift_one_inside box shifts a b _ j hj1 hj2,
    foldMols_outside box shifts s j x
      (fun r hr => by have := hs r hr; omega)]

theorem molRanges_head_le (c : Nat) (rest : List Nat)
    (h : List.Chain' (· ≤ ·) (c :: rest)) :
    ∀ r ∈ molRanges (c :: rest), c ≤ r.1 := by
  induction rest generalizing c with
  | nil =>
    intro r hr
    cases hr
  | cons d rest2 ih =>
    intro r hr
    rw [List.chain'_cons] at h
    rw [molRanges_cons_cons] at hr
    rcases List.mem_cons.mp hr with rfl | hmem
    · exact le_refl c
    · exact le_trans h.1 (ih d h.2 r hmem)

theorem molRanges_pairwise (l : List Nat) (h : List.Chain' (· ≤ ·) l) :
    (molRanges l).Pairwise (fun r s => r.2 ≤ s.1) := by
  induction l with
  | nil => exact List.Pairwise.nil
  | cons c rest ih =>
    cases rest with
    | nil => exact List.Pairwise.nil
    | cons d rest2 =>
      rw [molRanges_cons_cons]
      rw [List.chain'_cons] at h
      exact List.Pairwise.cons (molRanges_head_le d rest2 h.2) (ih h.2)

/-- C8: For every molecule `[a, b)` of the (sorted) MoleculeGrouping, the
unwrap step `imd_remove_molshifts` applies at most one uniform
whole-molecule translation: every atom of the molecule ends at its old
position minus the same translation vector, so relative in-molecule geometry
is unchanged; the per-axis amount of the chosen shift is the minimum
per-atom shift extreme when that minimum is positive, the maximum extreme
when that maximum is negative, and zero otherwise; and the two fold
accumulators really are the extremes: they bound every atom's shift of the
molecule from below and above. -/
theorem remove_molshifts_uniform (box : BoxMat) (molsIndex : List Nat)
    (shifts : Nat → Ivec3) (x : Nat → Rvec3)
    (hsort : List.Chain' (· ≤ ·) molsIndex)
    (a b : Nat) (hmem : (a, b) ∈ molRanges molsIndex) (hab : a < b) :
    (∀ j, a ≤ j → j < b →
      imd_remove_molshifts box molsIndex shifts x j
        = rsub (x j)
            (shiftTranslation box
              (molShiftVec (molSmallest shifts a b) (molLargest shifts a b))))
    ∧
    (∀ j k, a ≤ j → j < b → a ≤ k → k < b →
      rsub (imd_remove_molshifts box molsIndex shifts x j)
           (imd_remove_molshifts box molsIndex shifts x k)
        = rsub (x j) (x k)) ∧
    ((molShiftVec (molSmallest shifts a b) (molLargest shifts a b)).x
       = if 0 < (molSmallest shifts a b).x then (molSmallest shifts a b).x
         else if (molLargest shifts a b).x < 0 then (molLargest shifts a b).x
         else 0) ∧
    ((molShiftVec (molSmallest shifts a b) (molLargest shifts a b)).y
       = if 0 < (molSmallest shifts a b).y then (molSmallest shifts a b).y
         else if (molLargest shifts a b).y < 0 then (molLargest shifts a b).y
         else 0) ∧
    ((molShiftVec (molSmallest shifts a b) (molLargest shifts a b)).z
       = if 0 < (molSmallest shifts a b).z then (molSmallest shifts a b).z
         else if (molLargest shifts a b).z < 0 then (molLargest shifts a b).z
         else 0) ∧
    (∀ j, a ≤ j → j < b →
      ivecLe (molSmallest shifts a b) (shifts j) ∧
      ivecLe (shifts j) (molLargest shifts a b)) := by
  obtain ⟨s, t, hst⟩ := List.append_of_mem hmem
  have hpw := molRanges_pairwise molsIndex hsort
  rw [hst, List.pairwise_append] at hpw
  obtain ⟨hps, hpt, hcross⟩ := hpw
  have hs : ∀ r ∈ s, r.2 ≤ a :=
    fun r hr => hcross r hr (a, b) (List.mem_cons_self _ _)
  have ht2 : ∀ r ∈ t, b ≤ r.1 :=
    fun r hr => (List.pairwise_cons.mp hpt).1 r hr
  have hsm : ivecLe (molSmallest shifts a b) (molLargest shifts a b) :=
    ivecLe_trans (molSmallest_bound shifts a b a (le_refl a) hab)
      (molLargest_bound shifts a b a (le_refl a) hab)
  have hmain : ∀ j, a ≤ j → j < b →
      imd_remove_molshifts box molsIndex shifts x j
        = rsub (x j)
            (shiftTranslation box
              (molShiftVec (molSmallest shifts a b) (molLargest shifts a b)))
      := by
    intro j hj1 hj2
    have e0 : imd_remove_molshifts box molsIndex shifts x
        = foldMols box shifts (molRanges molsIndex) x := rfl
    rw [e0, hst]
    exact foldMols_split box shifts s t a b j hj1 hj2 hs ht2 x
  refine ⟨hmain, ?_, ?_, ?_, ?_, ?_⟩
  · intro j k hj1 hj2 hk1 hk2
    rw [hmain j hj1 hj2, hmain k hk1 hk2, rsub_rsub]
  · simp only [molShiftVec]
    have := hsm.1
    split_ifs <;> omega
  · simp only [molShiftVec]
    have := hsm.2.1
    split_ifs <;> omega
  · simp only [molShiftVec]
    have := hsm.2.2
    split_ifs <;> omega
  · intro j hj1 hj2
    exact ⟨molSmallest_bound shifts a b j hj1 hj2,
      molLargest_bound shifts a b j hj1 hj2⟩

theorem remove_molshifts_uniform_witness :
    (List.Chain' (· ≤ ·) [0, 2] ∧ (0, 2) ∈ molRanges [0, 2] ∧ 0 < 2) ∧
    ((∀ j, 0 ≤ j → j < 2 →
      imd_remove_molshifts exBox [0, 2] exShifts exX j
        = rsub (exX j)
            (shiftTranslation exBox
              (molShiftVec (molSmallest exShifts 0 2)
                (molLargest exShifts 0 2)))) ∧
    (∀ j k, 0 ≤ j → j < 2 → 0 ≤ k → k < 2 →
      rsub (imd_remove_molshifts exBox [0, 2] exShifts exX j)
           (imd_remove_molshifts exBox [0, 2] exShifts exX k)
        = rsub (exX j) (exX k)) ∧
    ((molShiftVec (molSmallest exShifts 0 2) (molLargest exShifts 0 2)).x
       = if 0 < (molSmallest exShifts 0 2).x then (molSmallest exShifts 0 2).x
         else if (molLargest exShifts 0 2).x < 0
         then (molLargest exShifts 0 2).x
         else 0) ∧
    ((molShiftVec (molSmallest exShifts 0 2) (molLargest exShifts 0 2)).y
       = if 0 < (molSmallest exShifts 0 2).y then (molSmallest exShifts 0 2).y
         else if (molLargest exShifts 0 2).y < 0
         then (molLargest exShifts 0 2).y
         else 0) ∧
    ((molShiftVec (molSmallest exShifts 0 2) (molLargest exShifts 0 2)).z
       = if 0 < (molSmallest exShifts 0 2).z then (molSmallest exShifts 0 2).z
         else if (molLargest exShifts 0 2).z < 0
         then (molLargest exShifts 0 2).z
         else 0) ∧
    (∀ j, 0 ≤ j → j < 2 →
      ivecLe (molSmallest exShifts 0 2) (exShifts j) ∧
      ivecLe (exShifts j) (molLargest exShifts 0 2))) :=
  ⟨⟨by simp [List.chain'_cons], by decide, by decide⟩,
   remove_molshifts_uniform exBox [0, 2] exShifts exX
     (by simp [List.chain'_cons]) 0 2 (by decide) (by decide)⟩

end GmxImd
